import Mathlib

/-!
Verification of the DOE (Dynamic Operating Envelope) engine of the
Benchmark_DOEs repository against its natural-language specification.

The development shallowly embeds the relevant source functions:

* `doe/utils/graph.py`   — graph model, `compute_info_dso`, `build_graph_from_data`
* `doe/constraints/powerflow_dc.py` — DC flow / balance constraint rules
* `doe/constraints/security.py`     — envelope ordering constraint
* `doe/objectives/global_sum.py`    — DOE objective construction
* `doe/solvers/pyomo_backend_dc.py` — result extraction of `solve_model`
* `doe/compute.py`       — argument validation, envelope extraction, dispatch

Numeric values are modelled as rationals (the Python code computes with
floats; every claim under study involves only exact arithmetic).  `None` /
missing attributes are modelled with `Option`.  The square roots computed
by `math.sqrt` are abstracted by a function parameter `sqrtfn : ℚ → ℚ`,
since the claims under study never depend on the numeric value of a square
root (the per-unit round trip cancels the base current exactly).
-/

/-- An attributed undirected graph in the style of `networkx.Graph` as used
by `compute_info_dso`: a node list, an edge list (each undirected edge is
stored once with a canonical orientation), and the nodal power attribute
`P` (the Python code reads `G.nodes[n].get(p_attr, 0.0)`, a total lookup
with default, hence a total function here). -/
structure Graph where
  nodes : List ℤ
  edges : List (ℤ × ℤ)
  P : ℤ → ℚ

/-- Neighbours of `n`: endpoints of edges incident to `n`, in both
orientations — the adjacency view `G.neighbors(n)` of an undirected
`networkx` graph whose edge set is `edges`. -/
def nbrs (G : Graph) (n : ℤ) : List ℤ :=
  (G.edges.filter (fun e => decide (e.1 = n))).map (fun e => e.2) ++
    (G.edges.filter (fun e => decide (e.2 = n))).map (fun e => e.1)

/-- The universe of node identifiers that can ever enter the BFS queue:
all edge endpoints. -/
def edgeUniv (G : Graph) : Finset ℤ :=
  (G.edges.map (fun e => e.1)).toFinset ∪ (G.edges.map (fun e => e.2)).toFinset

/-- Upper bound on the length of any adjacency list. -/
def degBound (G : Graph) : ℕ := 2 * G.edges.length

/-- The inner `while q:` loop of `compute_info_dso` (graph.py lines
292-303).  State: pending queue `q` (Python `deque`, popped left, appended
right), visited set `seen`, running total `total`.  A popped node already
seen or inside the operational set is skipped; otherwise it is marked
seen, its power accumulated, and its not-yet-seen external neighbours are
appended.  `fuel` bounds the number of iterations; `bfsFuel` below always
suffices (proved in `bfsLoop_fuel_sufficient`). -/
def bfsLoop (G : Graph) (op_set : Finset ℤ) :
    ℕ → List ℤ → Finset ℤ → ℚ → List ℤ × Finset ℤ × ℚ
  | 0, q, seen, total => (q, seen, total)
  | _ + 1, [], seen, total => ([], seen, total)
  | fuel + 1, u :: q, seen, total =>
    if u ∈ seen ∨ u ∈ op_set then
      bfsLoop G op_set fuel q seen total
    else
      bfsLoop G op_set fuel
        (q ++ (nbrs G u).filter (fun w => decide (w ∉ insert u seen ∧ w ∉ op_set)))
        (insert u seen) (total + G.P u)

/-- Fuel that always completes the BFS (see `bfsLoop_fuel_sufficient`). -/
def bfsFuel (G : Graph) : ℕ := (edgeUniv G).card * (degBound G + 1) + 1

/-- One iteration of the outer `for v in G.neighbors(c):` loop (graph.py
lines 286-303): skip neighbours inside the operational set or already
seen; otherwise run the BFS from that neighbour. -/
def launch (G : Graph) (op_set : Finset ℤ) (st : Finset ℤ × ℚ) (v : ℤ) :
    Finset ℤ × ℚ :=
  if v ∈ op_set ∨ v ∈ st.1 then st
  else (bfsLoop G op_set (bfsFuel G) [v] st.1 st.2).2

/-- `info_DSO[c]` for a single child `c` (graph.py lines 281-305):
`total` starts at `P(c)` with `seen = \x7bc\x7d`, then every external
neighbour of `c` launches a BFS. -/
def infoFor (G : Graph) (op_set : Finset ℤ) (c : ℤ) : ℚ :=
  ((nbrs G c).foldl (launch G op_set) ({c}, G.P c)).2

/-- `compute_info_dso` (graph.py lines 243-307): one aggregated value per
child.  Python iterates over `set(children_nodes)`; the result is keyed by
exactly that set, modelled here by deduplicating the child list. -/
def compute_info_dso (G : Graph) (op_set : Finset ℤ) (children : List ℤ) :
    List (ℤ × ℚ) :=
  children.dedup.map (fun c => (c, infoFor G op_set c))

/-- The reachability notion of the claim: `u` is reachable from some
neighbour of `c` lying outside the operational set, along a path that
never enters the operational set and never revisits `c`. -/
inductive ReachAvoid (G : Graph) (op_set : Finset ℤ) (c : ℤ) : ℤ → Prop
  | base {v : ℤ} : v ∈ nbrs G c → v ∉ op_set → v ≠ c → ReachAvoid G op_set c v
  | step {u w : ℤ} : ReachAvoid G op_set c u → w ∈ nbrs G u → w ∉ op_set →
      w ≠ c → ReachAvoid G op_set c w

/-- The worked example of the specification: nodes `1..5` with powers
`0, 0, 1/2, 2, -1/2` and edges `(1,3),(2,3),(3,4),(4,5)`. -/
def exampleGraph : Graph where
  nodes := [1, 2, 3, 4, 5]
  edges := [(1, 3), (2, 3), (3, 4), (4, 5)]
  P := fun n => if n = 3 then 1/2 else if n = 4 then 2 else if n = 5 then -1/2 else 0

example : (compute_info_dso exampleGraph {1, 2} [3]).lookup 3 = some 2 := by
  with_unfolding_all decide

/-! ### Supporting lemmas for the BFS of `compute_info_dso` -/

theorem mem_nbrs_univ {G : Graph} {u v : ℤ} (h : v ∈ nbrs G u) : v ∈ edgeUniv G := by
  simp only [nbrs, List.mem_append, List.mem_map, List.mem_filter] at h
  simp only [edgeUniv, Finset.mem_union, List.mem_toFinset, List.mem_map]
  rcases h with ⟨e, ⟨he, _⟩, rfl⟩ | ⟨e, ⟨he, _⟩, rfl⟩
  · exact Or.inr ⟨e, he, rfl⟩
  · exact Or.inl ⟨e, he, rfl⟩

theorem nbrs_length_le (G : Graph) (u : ℤ) : (nbrs G u).length ≤ degBound G := by
  have h1 := List.length_filter_le (fun e => decide (e.1 = u)) G.edges
  have h2 := List.length_filter_le (fun e => decide (e.2 = u)) G.edges
  simp only [nbrs, degBound, List.length_append, List.length_map]
  omega

theorem bfsLoop_seen_mono (G : Graph) (O : Finset ℤ) :
    ∀ fuel q (seen : Finset ℤ) total,
      seen ⊆ (bfsLoop G O fuel q seen total).2.1 := by
  intro fuel
  induction fuel with
  | zero => intro q seen total; simp [bfsLoop]
  | succ n ih =>
    intro q seen total
    cases q with
    | nil => simp [bfsLoop]
    | cons u q =>
      rw [bfsLoop]
      by_cases h : u ∈ seen ∨ u ∈ O
      · rw [if_pos h]; exact ih q seen total
      · rw [if_neg h]
        exact (Finset.subset_insert u seen).trans (ih _ _ _)

theorem bfsLoop_fuel_sufficient (G : Graph) (O : Finset ℤ) :
    ∀ fuel q (seen : Finset ℤ) total,
      (∀ x ∈ q, x ∈ edgeUniv G) →
      (edgeUniv G \ seen).card * (degBound G + 1) + q.length ≤ fuel →
      (bfsLoop G O fuel q seen total).1 = [] := by
  intro fuel
  induction fuel with
  | zero =>
    intro q seen total _ hm
    have hq : q.length = 0 := by omega
    rw [List.length_eq_zero] at hq
    subst hq
    simp [bfsLoop]
  | succ n ih =>
    intro q seen total hq hm
    cases q with
    | nil => simp [bfsLoop]
    | cons u q =>
      rw [bfsLoop]
      by_cases h : u ∈ seen ∨ u ∈ O
      · rw [if_pos h]
        refine ih q seen total (fun x hx => hq x (List.mem_cons_of_mem u hx)) ?_
        simp only [List.length_cons] at hm
        omega
      · rw [if_neg h]
        push_neg at h
        have huU : u ∈ edgeUniv G := hq u (List.mem_cons_self u q)
        have huD : u ∈ edgeUniv G \ seen := Finset.mem_sdiff.mpr ⟨huU, h.1⟩
        refine ih _ _ _ ?_ ?_
        · intro x hx
          rcases List.mem_append.mp hx with hx | hx
          · exact hq x (List.mem_cons_of_mem u hx)
          · exact mem_nbrs_univ (List.mem_filter.mp hx).1
        · have hins : edgeUniv G \ insert u seen = (edgeUniv G \ seen).erase u := by
            ext x
            simp only [Finset.mem_sdiff, Finset.mem_insert, Finset.mem_erase]
            tauto
          have hcard : ((edgeUniv G \ seen).erase u).card + 1 = (edgeUniv G \ seen).card :=
            Finset.card_erase_add_one huD
          have hpush : ((nbrs G u).filter
              (fun w => decide (w ∉ insert u seen ∧ w ∉ O))).length ≤ degBound G :=
            (List.length_filter_le _ _).trans (nbrs_length_le G u)
          rw [hins]
          simp only [List.length_append, List.length_cons] at hm ⊢
          have hexp : ((edgeUniv G \ seen).erase u).card * (degBound G + 1) + (degBound G + 1)
              = (edgeUniv G \ seen).card * (degBound G + 1) := by
            rw [← Nat.succ_mul, ← hcard]
          omega

theorem ReachAvoid.not_op {G : Graph} {O : Finset ℤ} {c u : ℤ}
    (h : ReachAvoid G O c u) : u ∉ O ∧ u ≠ c := by
  cases h with
  | base _ hO hc => exact ⟨hO, hc⟩
  | step _ _ hO hc => exact ⟨hO, hc⟩

theorem bfsLoop_invariants (G : Graph) (O : Finset ℤ) (c : ℤ) :
    ∀ fuel q (seen : Finset ℤ) total,
      c ∈ seen →
      total = ∑ u ∈ seen, G.P u →
      (∀ x ∈ q, ReachAvoid G O c x) →
      (∀ x ∈ seen, x = c ∨ ReachAvoid G O c x) →
      (∀ u ∈ seen, u = c ∨ ∀ w ∈ nbrs G u, w ∈ O ∨ w ∈ seen ∨ w ∈ q) →
      c ∈ (bfsLoop G O fuel q seen total).2.1 ∧
      (bfsLoop G O fuel q seen total).2.2 =
        ∑ u ∈ (bfsLoop G O fuel q seen total).2.1, G.P u ∧
      (∀ x ∈ (bfsLoop G O fuel q seen total).2.1, x = c ∨ ReachAvoid G O c x) ∧
      (∀ u ∈ (bfsLoop G O fuel q seen total).2.1, u = c ∨
        ∀ w ∈ nbrs G u, w ∈ O ∨ w ∈ (bfsLoop G O fuel q seen total).2.1 ∨
          w ∈ (bfsLoop G O fuel q seen total).1) := by
  intro fuel
  induction fuel with
  | zero =>
    intro q seen total hc htot hqr hsound hclose
    simp only [bfsLoop]
    exact ⟨hc, htot, hsound, hclose⟩
  | succ n ih =>
    intro q seen total hc htot hqr hsound hclose
    cases q with
    | nil =>
      simp only [bfsLoop]
      exact ⟨hc, htot, hsound, hclose⟩
    | cons u q =>
      rw [bfsLoop]
      by_cases h : u ∈ seen ∨ u ∈ O
      · rw [if_pos h]
        refine ih q seen total hc htot
          (fun x hx => hqr x (List.mem_cons_of_mem u hx)) hsound ?_
        intro x hx
        rcases hclose x hx with hxc | hcl
        · exact Or.inl hxc
        · refine Or.inr (fun w hw => ?_)
          rcases hcl w hw with hwO | hws | hwq
          · exact Or.inl hwO
          · exact Or.inr (Or.inl hws)
          · rcases List.mem_cons.mp hwq with rfl | hwq
            · rcases h with hs | hO
              · exact Or.inr (Or.inl hs)
              · exact Or.inl hO
            · exact Or.inr (Or.inr hwq)
      · rw [if_neg h]
        push_neg at h
        have hur : ReachAvoid G O c u := hqr u (List.mem_cons_self u q)
        refine ih _ _ _ (Finset.mem_insert_of_mem hc) ?_ ?_ ?_ ?_
        · rw [Finset.sum_insert h.1, htot]
          ring
        · intro x hx
          rcases List.mem_append.mp hx with hx | hx
          · exact hqr x (List.mem_cons_of_mem u hx)
          · have hx' := List.mem_filter.mp hx
            have hcond := of_decide_eq_true hx'.2
            refine ReachAvoid.step hur hx'.1 hcond.2 ?_
            intro hxc
            exact hcond.1 (hxc ▸ Finset.mem_insert_of_mem hc)
        · intro x hx
          rcases Finset.mem_insert.mp hx with rfl | hx
          · exact Or.inr hur
          · exact hsound x hx
        · intro x hx
          rcases Finset.mem_insert.mp hx with rfl | hx
          · refine Or.inr (fun w hw => ?_)
            by_cases hcond : w ∉ insert x seen ∧ w ∉ O
            · refine Or.inr (Or.inr (List.mem_append.mpr (Or.inr ?_)))
              exact List.mem_filter.mpr ⟨hw, decide_eq_true hcond⟩
            · push_neg at hcond
              by_cases hwO : w ∈ O
              · exact Or.inl hwO
              · have hws : w ∈ insert x seen := by
                  by_contra hno
                  exact hwO (hcond hno)
                exact Or.inr (Or.inl hws)
          · rcases hclose x hx with hxc | hcl
            · exact Or.inl hxc
            · refine Or.inr (fun w hw => ?_)
              rcases hcl w hw with hwO | hws | hwq
              · exact Or.inl hwO
              · exact Or.inr (Or.inl (Finset.mem_insert_of_mem hws))
              · rcases List.mem_cons.mp hwq with rfl | hwq
                · exact Or.inr (Or.inl (Finset.mem_insert_self w seen))
                · exact Or.inr (Or.inr (List.mem_append.mpr (Or.inl hwq)))

/-- Invariant carried by the state of the outer neighbour loop of
`compute_info_dso`: the child is seen, the total is the sum of the seen
powers, every seen node is the child or claim-reachable, and the seen set
is closed under external adjacency. -/
def LaunchInv (G : Graph) (O : Finset ℤ) (c : ℤ) (st : Finset ℤ × ℚ) : Prop :=
  c ∈ st.1 ∧ st.2 = ∑ u ∈ st.1, G.P u ∧
    (∀ x ∈ st.1, x = c ∨ ReachAvoid G O c x) ∧
    (∀ u ∈ st.1, u = c ∨ ∀ w ∈ nbrs G u, w ∈ O ∨ w ∈ st.1)

theorem launch_spec (G : Graph) (O : Finset ℤ) (c : ℤ) (st : Finset ℤ × ℚ) (v : ℤ)
    (hv : v ∈ nbrs G c) (hinv : LaunchInv G O c st) :
    LaunchInv G O c (launch G O st v) ∧ st.1 ⊆ (launch G O st v).1 ∧
      (v ∉ O → v ∈ (launch G O st v).1) := by
  obtain ⟨hc, htot, hsound, hclose⟩ := hinv
  rw [launch]
  by_cases h : v ∈ O ∨ v ∈ st.1
  · rw [if_pos h]
    refine ⟨⟨hc, htot, hsound, hclose⟩, subset_rfl, fun hvO => ?_⟩
    rcases h with h | h
    · exact absurd h hvO
    · exact h
  · rw [if_neg h]
    push_neg at h
    have hvr : ReachAvoid G O c v := by
      refine ReachAvoid.base hv h.1 (fun hvc => h.2 (hvc ▸ hc))
    have hterm : (bfsLoop G O (bfsFuel G) [v] st.1 st.2).1 = [] := by
      refine bfsLoop_fuel_sufficient G O _ _ _ _ ?_ ?_
      · intro x hx
        rcases List.mem_singleton.mp hx with rfl
        exact mem_nbrs_univ hv
      · have hcard : (edgeUniv G \ st.1).card ≤ (edgeUniv G).card :=
          Finset.card_le_card (Finset.sdiff_subset)
        have := Nat.mul_le_mul hcard (le_refl (degBound G + 1))
        simp only [bfsFuel, List.length_singleton]
        omega
    have hstep := bfsLoop_invariants G O c (bfsFuel G) [v] st.1 st.2 hc htot
      (by
        intro x hx
        rcases List.mem_singleton.mp hx with rfl
        exact hvr)
      hsound
      (by
        intro u hu
        rcases hclose u hu with huc | hcl
        · exact Or.inl huc
        · exact Or.inr fun w hw => (hcl w hw).imp id (fun hws => Or.inl hws))
    refine ⟨⟨hstep.1, hstep.2.1, hstep.2.2.1, ?_⟩, ?_, fun _ => ?_⟩
    · intro u hu
      rcases hstep.2.2.2 u hu with huc | hcl
      · exact Or.inl huc
      · refine Or.inr fun w hw => ?_
        rcases hcl w hw with hwO | hws | hwq
        · exact Or.inl hwO
        · exact Or.inr hws
        · rw [hterm] at hwq
          exact absurd hwq (List.not_mem_nil w)
    · exact bfsLoop_seen_mono G O (bfsFuel G) [v] st.1 st.2
    · have h1 : bfsLoop G O (bfsFuel G) [v] st.1 st.2 =
          bfsLoop G O ((edgeUniv G).card * (degBound G + 1))
            ([] ++ (nbrs G v).filter (fun w => decide (w ∉ insert v st.1 ∧ w ∉ O)))
            (insert v st.1) (st.2 + G.P v) := by
        rw [bfsFuel, bfsLoop, if_neg (by tauto)]
      have h2 : insert v st.1 ⊆ (bfsLoop G O (bfsFuel G) [v] st.1 st.2).2.1 := by
        rw [h1]
        exact bfsLoop_seen_mono G O _ _ _ _
      exact h2 (Finset.mem_insert_self v st.1)

theorem foldl_launch_spec (G : Graph) (O : Finset ℤ) (c : ℤ) :
    ∀ (l : List ℤ) (st : Finset ℤ × ℚ), (∀ v ∈ l, v ∈ nbrs G c) →
      LaunchInv G O c st →
      LaunchInv G O c (l.foldl (launch G O) st) ∧
        st.1 ⊆ (l.foldl (launch G O) st).1 ∧
        (∀ v ∈ l, v ∉ O → v ∈ (l.foldl (launch G O) st).1) := by
  intro l
  induction l with
  | nil =>
    intro st _ hinv
    exact ⟨hinv, subset_rfl, by simp⟩
  | cons v l ih =>
    intro st hl hinv
    have h1 := launch_spec G O c st v (hl v (List.mem_cons_self v l)) hinv
    have h2 := ih (launch G O st v) (fun w hw => hl w (List.mem_cons_of_mem v hw)) h1.1
    refine ⟨h2.1, h1.2.1.trans h2.2.1, ?_⟩
    intro w hw hwO
    rcases List.mem_cons.mp hw with rfl | hw
    · exact h2.2.1 (h1.2.2 hwO)
    · exact h2.2.2 w hw hwO

theorem infoFor_spec (G : Graph) (O : Finset ℤ) (c : ℤ) :
    ∃ S : Finset ℤ, (∀ u, u ∈ S ↔ ReachAvoid G O c u) ∧
      infoFor G O c = G.P c + ∑ u ∈ S, G.P u := by
  have hinv0 : LaunchInv G O c ({c}, G.P c) := by
    refine ⟨Finset.mem_singleton_self c, (Finset.sum_singleton _ _).symm, ?_, ?_⟩
    · intro x hx
      exact Or.inl (Finset.mem_singleton.mp hx)
    · intro u hu
      exact Or.inl (Finset.mem_singleton.mp hu)
  have hfold := foldl_launch_spec G O c (nbrs G c) ({c}, G.P c)
    (fun v hv => hv) hinv0
  set F := (nbrs G c).foldl (launch G O) ({c}, G.P c) with hF
  obtain ⟨⟨hcF, htotF, hsoundF, hcloseF⟩, hmono, hcover⟩ := hfold
  have hcomplete : ∀ u, ReachAvoid G O c u → u ∈ F.1 := by
    intro u hu
    induction hu with
    | base hv hO _ => exact hcover _ hv hO
    | step hu hw hwO hwc ih =>
      rcases hcloseF _ ih with huc | hcl
      · exact absurd huc (ReachAvoid.not_op hu).2
      · rcases hcl _ hw with h | h
        · exact absurd h hwO
        · exact h
  refine ⟨F.1.erase c, ?_, ?_⟩
  · intro u
    constructor
    · intro hu
      have hu' := Finset.mem_erase.mp hu
      rcases hsoundF u hu'.2 with huc | hur
      · exact absurd huc hu'.1
      · exact hur
    · intro hu
      exact Finset.mem_erase.mpr ⟨(ReachAvoid.not_op hu).2, hcomplete u hu⟩
  · rw [infoFor, ← hF, htotF, Finset.add_sum_erase F.1 G.P hcF]

theorem lookup_map_self {α β : Type} [DecidableEq α] (f : α → β) :
    ∀ (l : List α) (c : α), c ∈ l →
      (l.map (fun x => (x, f x))).lookup c = some (f c) := by
  intro l
  induction l with
  | nil => intro c hc; exact absurd hc (List.not_mem_nil c)
  | cons x l ih =>
    intro c hc
    by_cases hcx : c = x
    · subst hcx
      simp [List.lookup]
    · have hc' : c ∈ l := by
        rcases List.mem_cons.mp hc with h | h
        · exact absurd h hcx
        · exact h
      simpa [List.lookup, beq_false_of_ne hcx] using ih c hc'

theorem compute_info_dso_keys (G : Graph) (O : Finset ℤ) (C : List ℤ) :
    ((compute_info_dso G O C).map Prod.fst).toFinset = C.toFinset := by
  simp only [compute_info_dso, List.map_map]
  have h : (Prod.fst ∘ fun c => (c, infoFor G O c)) = id := by
    funext x
    rfl
  rw [h, List.map_id]
  ext x
  simp [List.mem_dedup]

/-- C1: boundary aggregation (`compute_info_dso`).  For every graph, every
operational node set and every child list, the returned mapping has
exactly the keys of the child set, and the entry of a child `c` equals
`P(c)` plus the sum of `P` over every node outside the operational set
that is reachable from some external neighbour of `c` by a path that never
enters the operational set and never revisits `c`; on the worked example
of the specification the entry of child `3` is `2`. -/
theorem C1_boundary_aggregation (G : Graph) (O : Finset ℤ) (C : List ℤ) (c : ℤ)
    (hwf : ∀ e ∈ G.edges, e.1 ∈ G.nodes ∧ e.2 ∈ G.nodes)
    (hcG : c ∈ G.nodes) (hc : c ∈ C) :
    ((compute_info_dso G O C).map Prod.fst).toFinset = C.toFinset ∧
    (∃ S : Finset ℤ, (∀ u, u ∈ S ↔ ReachAvoid G O c u) ∧
      (compute_info_dso G O C).lookup c = some (G.P c + ∑ u ∈ S, G.P u)) ∧
    (compute_info_dso exampleGraph {1, 2} [3]).lookup 3 = some 2 := by
  refine ⟨compute_info_dso_keys G O C, ?_, by with_unfolding_all decide⟩
  obtain ⟨S, hS, hval⟩ := infoFor_spec G O c
  refine ⟨S, hS, ?_⟩
  rw [compute_info_dso, lookup_map_self (infoFor G O) C.dedup c (List.mem_dedup.mpr hc), hval]

theorem C1_boundary_aggregation_witness :
    ((∀ e ∈ exampleGraph.edges, e.1 ∈ exampleGraph.nodes ∧ e.2 ∈ exampleGraph.nodes) ∧
      (3 : ℤ) ∈ exampleGraph.nodes ∧ (3 : ℤ) ∈ ([3] : List ℤ)) ∧
    (((compute_info_dso exampleGraph {1, 2} [3]).map Prod.fst).toFinset =
        ([3] : List ℤ).toFinset ∧
      (∃ S : Finset ℤ, (∀ u, u ∈ S ↔ ReachAvoid exampleGraph {1, 2} 3 u) ∧
        (compute_info_dso exampleGraph {1, 2} [3]).lookup 3 =
          some (exampleGraph.P 3 + ∑ u ∈ S, exampleGraph.P u)) ∧
      (compute_info_dso exampleGraph {1, 2} [3]).lookup 3 = some 2) :=
  ⟨⟨by decide, by decide, by decide⟩,
    C1_boundary_aggregation exampleGraph {1, 2} [3] 3 (by decide) (by decide) (by decide)⟩

/-! ### Graph construction (`build_graph_from_data`, graph.py lines 102-221)

Rows of the pandapower `line` / `trafo` / `trafo3w` tables, restricted to
the columns the builder reads.  In these simplified rows `none` models a
missing key (`row.get(key, default)` applies the default at the use
site); stored entries are assumed finite, so `LineRow`/`build_line_edge`
cover tables without NaN reactance or length entries — the float-aware
refinement `LineRowF`/`build_line_edge_f` at the end of this file tracks
NaN entries explicitly.  For `max_i_ka`, `none` faithfully models both a
missing rating and a NaN one, because the source itself conflates them
(`max_i_ka is not None and not math.isnan(max_i_ka)`). -/

structure LineRow where
  from_bus : ℤ
  to_bus : ℤ
  length_km : Option ℚ
  x_ohm_per_km : Option ℚ
  r_ohm_per_km : Option ℚ
  max_i_ka : Option ℚ
  deriving DecidableEq

structure TrafoRow where
  hv_bus : ℤ
  lv_bus : ℤ
  sn_mva : Option ℚ
  vn_hv_kv : Option ℚ
  vk_percent : Option ℚ
  vkr_percent : Option ℚ
  deriving DecidableEq

structure Trafo3wRow where
  hv_bus : ℤ
  mv_bus : ℤ
  lv_bus : ℤ
  deriving DecidableEq

/-- Attribute dictionary stored on an edge by `G.add_edge`; `none` stands
both for an attribute set to Python `None` and for an absent attribute
(`.get` returns `None` in either case). -/
structure EdgeAttrs where
  u : ℤ
  v : ℤ
  type : String
  b_pu : Option ℚ
  max_i_ka : Option ℚ
  I_min_pu : Option ℚ
  I_max_pu : Option ℚ
  R : Option ℚ
  X : Option ℚ
  x_ohm : Option ℚ
  r_ohm : Option ℚ
  deriving DecidableEq

inductive GraphBuildError
  | zeroReactance (u v : ℤ)
  deriving DecidableEq

/-- Python truthiness of an optional float: falsy when `None` or zero. -/
def truthy : Option ℚ → Bool
  | none => false
  | some x => decide (x ≠ 0)

/-- Body of the line loop (graph.py lines 133-168).  `math.isclose(x, 0.0)`
with the default tolerances (`rel_tol = 1e-9`, `abs_tol = 0.0`) holds
exactly when `x == 0.0`, so the zero-reactance guard is an exact test. -/
def build_line_edge (s_base : ℚ) (vn_kv : ℤ → ℚ) (sqrtfn : ℚ → ℚ) (row : LineRow) :
    Except GraphBuildError EdgeAttrs :=
  let length := row.length_km.getD 0
  let x_ohm := row.x_ohm_per_km.getD 0 * length
  let r_ohm := row.r_ohm_per_km.getD 0 * length
  let V_kv := vn_kv row.from_bus
  if x_ohm = 0 then .error (.zeroReactance row.from_bus row.to_bus)
  else
    let z_base := if s_base ≠ 0 then V_kv ^ 2 / s_base else 0
    let R_pu := if z_base ≠ 0 then r_ohm / z_base else 0
    let X_pu := if z_base ≠ 0 then x_ohm / z_base else 0
    let b_pu := V_kv ^ 2 / (x_ohm * s_base)
    let base_i_ka := s_base / (sqrtfn 3 * V_kv)
    let I_max_pu : ℚ := match row.max_i_ka with
      | some i => i / base_i_ka
      | none => 10
    .ok { u := row.from_bus, v := row.to_bus, type := "line", b_pu := some b_pu,
          max_i_ka := row.max_i_ka, I_min_pu := some (-I_max_pu),
          I_max_pu := some I_max_pu, R := some R_pu, X := some X_pu,
          x_ohm := some x_ohm, r_ohm := some r_ohm }

/-- Body of the two-winding transformer loop (graph.py lines 171-202):
always `type = "trafo"` and `b_pu = None`; `R`/`X` are filled only when
`sn_mva`, `vn_hv` and `vk_percent` are all truthy and the base impedance
is nonzero. -/
def build_trafo_edge (s_base : ℚ) (vn_kv : ℤ → ℚ) (sqrtfn : ℚ → ℚ) (row : TrafoRow) :
    EdgeAttrs :=
  let vn_hv : Option ℚ := some (row.vn_hv_kv.getD (vn_kv row.hv_bus))
  let rx : Option ℚ × Option ℚ :=
    if truthy row.sn_mva && truthy vn_hv && truthy row.vk_percent then
      let z_trafobase := (vn_hv.getD 0) ^ 2 / row.sn_mva.getD 0
      let r_ohm := row.vkr_percent.getD 0 / 100 * z_trafobase
      let z_ohm := row.vk_percent.getD 0 / 100 * z_trafobase
      let x_ohm := sqrtfn (max (z_ohm ^ 2 - r_ohm ^ 2) 0)
      let z_base := if s_base ≠ 0 then (vn_hv.getD 0) ^ 2 / s_base else 0
      if z_base ≠ 0 then (some (r_ohm / z_base), some (x_ohm / z_base)) else (none, none)
    else (none, none)
  { u := row.hv_bus, v := row.lv_bus, type := "trafo", b_pu := none,
    max_i_ka := none, I_min_pu := none, I_max_pu := none,
    R := rx.1, X := rx.2, x_ohm := none, r_ohm := none }

/-- Body of the three-winding transformer loop (graph.py lines 204-220):
two edges, `hv-mv` and `hv-lv`, with `b_pu = None`. -/
def build_trafo3w_edges (row : Trafo3wRow) : List EdgeAttrs :=
  [{ u := row.hv_bus, v := row.mv_bus, type := "trafo3w", b_pu := none,
     max_i_ka := none, I_min_pu := none, I_max_pu := none,
     R := none, X := none, x_ohm := none, r_ohm := none },
   { u := row.hv_bus, v := row.lv_bus, type := "trafo3w", b_pu := none,
     max_i_ka := none, I_min_pu := none, I_max_pu := none,
     R := none, X := none, x_ohm := none, r_ohm := none }]

/-- The edge-insertion order of `build_graph_from_data`: lines, then
two-winding transformers, then three-winding transformer branches. -/
def build_graph_edges (s_base : ℚ) (vn_kv : ℤ → ℚ) (sqrtfn : ℚ → ℚ)
    (lines : List LineRow) (trafos : List TrafoRow) (trafo3ws : List Trafo3wRow) :
    Except GraphBuildError (List EdgeAttrs) := do
  let lineEdges ← lines.mapM (build_line_edge s_base vn_kv sqrtfn)
  return lineEdges ++ trafos.map (build_trafo_edge s_base vn_kv sqrtfn) ++
    (trafo3ws.map build_trafo3w_edges).flatten

def sameEdgePair (e : EdgeAttrs) (u v : ℤ) : Bool :=
  (decide (e.u = u) && decide (e.v = v)) || (decide (e.u = v) && decide (e.v = u))

/-- The `networkx` adjacency lookup `G[u][v]`: an undirected graph stores
one attribute dictionary per unordered pair, and a repeated `add_edge`
overwrites it, so the last inserted matching edge wins. -/
def lookupEdgeAttrs (es : List EdgeAttrs) (u v : ℤ) : Option EdgeAttrs :=
  es.reverse.find? (fun e => sameEdgePair e u v)

/-! ### DC power-flow constraint rules (`powerflow_dc.py`) -/

/-- Outcome of `dc_flow_rule` (powerflow_dc.py lines 37-48) for one index
`(u, v, vp, vv)`: the rule raises `KeyError` for a line without `b_pu`,
returns `pyo.Constraint.Skip` for any other edge without `b_pu`, and
otherwise emits the flow equation with coefficient `b_pu`. -/
inductive DCFlowResult
  | missingB (u v : ℤ)
  | skip
  | flowEq (b : ℚ)
  deriving DecidableEq

def dc_flow_rule (u v : ℤ) (b_pu : Option ℚ) (edge_type : String) : DCFlowResult :=
  match b_pu with
  | none => if edge_type = "line" then .missingB u v else .skip
  | some b => .flowEq b

/-- A valuation of the Pyomo variables the DC flow equation mentions. -/
structure DCVal where
  F : ℤ → ℤ → ℕ → ℕ → ℚ
  theta : ℤ → ℕ → ℕ → ℚ
  V_P : ℕ → ℚ

/-- Satisfaction of the generated constraint at index `(u, v, vp, vv)`:
`skip` constrains nothing, the flow equation is
`F[u,v,vp,vv] = V_P[vv]^2 * b_pu * (theta[u,vp,vv] - theta[v,vp,vv])`,
and a raised `KeyError` generates no model at all. -/
def DCFlowResult.holds : DCFlowResult → ℤ → ℤ → ℕ → ℕ → DCVal → Prop
  | .missingB _ _, _, _, _, _, _ => False
  | .skip, _, _, _, _, _ => True
  | .flowEq b, u, v, vp, vv, σ =>
      σ.F u v vp vv = (σ.V_P vv) ^ 2 * b * (σ.theta u vp vv - σ.theta v vp vv)

/-- C6: for every edge whose `b_pu` is defined and every scenario vertex
pair, the DC builder generates exactly the flow equation
`F = V_P^2 * b_pu * (theta_u - theta_v)`; with `b_pu = 2`, `theta_u = 1/10`,
`theta_v = 0` and `V_P = 1` its unique solution in `F` is `1/5`. -/
theorem C6_dc_flow_equation (u v : ℤ) (vp vv : ℕ) (edge_type : String)
    (b_pu : Option ℚ) (b : ℚ) (hb : b_pu = some b) :
    dc_flow_rule u v b_pu edge_type = DCFlowResult.flowEq b ∧
    (∀ σ : DCVal, (dc_flow_rule u v b_pu edge_type).holds u v vp vv σ ↔
      σ.F u v vp vv = (σ.V_P vv) ^ 2 * b * (σ.theta u vp vv - σ.theta v vp vv)) ∧
    (∀ Fval : ℚ, (dc_flow_rule 0 1 (some 2) "line").holds 0 1 0 0
        { F := fun _ _ _ _ => Fval
          theta := fun n _ _ => if n = 0 then 1/10 else 0
          V_P := fun _ => 1 } ↔ Fval = 1/5) := by
  subst hb
  refine ⟨rfl, fun σ => Iff.rfl, fun Fval => ?_⟩
  show Fval = (1 : ℚ) ^ 2 * 2 * (1/10 - 0) ↔ Fval = 1/5
  norm_num

theorem C6_dc_flow_equation_witness :
    (some (3 : ℚ) = some 3) ∧
    (dc_flow_rule 5 7 (some 3) "line" = DCFlowResult.flowEq 3 ∧
      (∀ σ : DCVal, (dc_flow_rule 5 7 (some 3) "line").holds 5 7 0 1 σ ↔
        σ.F 5 7 0 1 = (σ.V_P 1) ^ 2 * 3 * (σ.theta 5 0 1 - σ.theta 7 0 1)) ∧
      (∀ Fval : ℚ, (dc_flow_rule 0 1 (some 2) "line").holds 0 1 0 0
          { F := fun _ _ _ _ => Fval
            theta := fun n _ _ => if n = 0 then 1/10 else 0
            V_P := fun _ => 1 } ↔ Fval = 1/5)) :=
  ⟨rfl, C6_dc_flow_equation 5 7 0 1 "line" (some 3) 3 rfl⟩

/-- C10: for a line with a known rating `max_i_ka = i`, the stored bounds
are `I_max_pu = i / base_i` and `I_min_pu = -I_max_pu` where
`base_i = s_base / (sqrt 3 * V_base)`, and multiplying the per-unit bound
back by the same base current recovers `i` exactly. -/
theorem C10_per_unit_round_trip (s_base : ℚ) (vn_kv : ℤ → ℚ) (sqrtfn : ℚ → ℚ)
    (row : LineRow) (i : ℚ) (hi : row.max_i_ka = some i)
    (hx : ¬ row.x_ohm_per_km.getD 0 * row.length_km.getD 0 = 0)
    (hbase : s_base / (sqrtfn 3 * vn_kv row.from_bus) ≠ 0) :
    ∃ e : EdgeAttrs, build_line_edge s_base vn_kv sqrtfn row = .ok e ∧
      e.I_max_pu = some (i / (s_base / (sqrtfn 3 * vn_kv row.from_bus))) ∧
      e.I_min_pu = some (-(i / (s_base / (sqrtfn 3 * vn_kv row.from_bus)))) ∧
      (i / (s_base / (sqrtfn 3 * vn_kv row.from_bus))) *
        (s_base / (sqrtfn 3 * vn_kv row.from_bus)) = i := by
  simp only [build_line_edge, hx, if_false, hi]
  exact ⟨_, rfl, rfl, rfl, div_mul_cancel₀ i hbase⟩

theorem C10_per_unit_round_trip_witness :
    ({ from_bus := 1, to_bus := 2, length_km := some 1, x_ohm_per_km := some 5,
       r_ohm_per_km := none, max_i_ka := some 3 : LineRow }.max_i_ka = some 3) ∧
    (¬ ({ from_bus := 1, to_bus := 2, length_km := some 1, x_ohm_per_km := some 5,
          r_ohm_per_km := none, max_i_ka := some 3 : LineRow }.x_ohm_per_km.getD 0 *
        ({ from_bus := 1, to_bus := 2, length_km := some 1, x_ohm_per_km := some 5,
           r_ohm_per_km := none, max_i_ka := some 3 : LineRow }.length_km.getD 0) = 0)) ∧
    ((100 : ℚ) / ((fun _ : ℚ => (2 : ℚ)) 3 * (fun _ : ℤ => (20 : ℚ)) 1) ≠ 0) ∧
    (∃ e : EdgeAttrs, build_line_edge 100 (fun _ => 20) (fun _ => 2)
        { from_bus := 1, to_bus := 2, length_km := some 1, x_ohm_per_km := some 5,
          r_ohm_per_km := none, max_i_ka := some 3 } = .ok e ∧
      e.I_max_pu = some (3 / ((100 : ℚ) / ((2 : ℚ) * 20))) ∧
      e.I_min_pu = some (-(3 / ((100 : ℚ) / ((2 : ℚ) * 20)))) ∧
      (3 / ((100 : ℚ) / ((2 : ℚ) * 20))) * ((100 : ℚ) / ((2 : ℚ) * 20)) = 3) :=
  ⟨rfl, by with_unfolding_all decide, by with_unfolding_all decide,
    C10_per_unit_round_trip 100 (fun _ => 20) (fun _ => 2)
      { from_bus := 1, to_bus := 2, length_km := some 1, x_ohm_per_km := some 5,
        r_ohm_per_km := none, max_i_ka := some 3 } 3 rfl
      (by with_unfolding_all decide) (by with_unfolding_all decide)⟩

theorem trafo_region_attrs (s_base : ℚ) (vn_kv : ℤ → ℚ) (sqrtfn : ℚ → ℚ)
    (trafos : List TrafoRow) (trafo3ws : List Trafo3wRow) :
    ∀ e ∈ trafos.map (build_trafo_edge s_base vn_kv sqrtfn) ++
        (trafo3ws.map build_trafo3w_edges).flatten,
      e.b_pu = none ∧ e.type ≠ "line" := by
  intro e he
  rcases List.mem_append.mp he with he | he
  · obtain ⟨t, _, rfl⟩ := List.mem_map.mp he
    exact ⟨rfl, by simp [build_trafo_edge]⟩
  · obtain ⟨l, hl, hel⟩ := List.mem_flatten.mp he
    obtain ⟨r, _, rfl⟩ := List.mem_map.mp hl
    rcases List.mem_cons.mp hel with rfl | hel
    · exact ⟨rfl, by simp⟩
    · rcases List.mem_cons.mp hel with rfl | hel
      · exact ⟨rfl, by simp⟩
      · exact absurd hel (List.not_mem_nil e)

/-- C7: every two-winding transformer row yields an edge that is present
in the built edge set, whose stored attributes (under the last-write-wins
adjacency of `networkx`) carry `b_pu = None` and a non-line type, and for
which the DC builder's rule returns `Skip` — no flow equation is generated
for it. -/
theorem C7_transformer_exemption (s_base : ℚ) (vn_kv : ℤ → ℚ) (sqrtfn : ℚ → ℚ)
    (lines : List LineRow) (trafos : List TrafoRow) (trafo3ws : List Trafo3wRow)
    (es : List EdgeAttrs) (t : TrafoRow)
    (hok : build_graph_edges s_base vn_kv sqrtfn lines trafos trafo3ws = .ok es)
    (ht : t ∈ trafos) :
    ∃ a : EdgeAttrs, lookupEdgeAttrs es t.hv_bus t.lv_bus = some a ∧ a ∈ es ∧
      a.b_pu = none ∧ a.type ≠ "line" ∧
      dc_flow_rule a.u a.v a.b_pu a.type = DCFlowResult.skip := by
  rw [build_graph_edges] at hok
  cases hml : lines.mapM (build_line_edge s_base vn_kv sqrtfn) with
  | error err =>
    rw [hml] at hok
    cases hok
  | ok le =>
    rw [hml] at hok
    have hes : es = le ++ (trafos.map (build_trafo_edge s_base vn_kv sqrtfn) ++
        (trafo3ws.map build_trafo3w_edges).flatten) := by
      have : Except.ok (ε := GraphBuildError)
          (le ++ trafos.map (build_trafo_edge s_base vn_kv sqrtfn) ++
            (trafo3ws.map build_trafo3w_edges).flatten) = .ok es := hok
      cases this
      exact (List.append_assoc _ _ _).symm ▸ rfl
    set rest := trafos.map (build_trafo_edge s_base vn_kv sqrtfn) ++
      (trafo3ws.map build_trafo3w_edges).flatten with hrestdef
    have hrest := trafo_region_attrs s_base vn_kv sqrtfn trafos trafo3ws
    have hmem : build_trafo_edge s_base vn_kv sqrtfn t ∈ rest :=
      List.mem_append_left _ (List.mem_map_of_mem _ ht)
    have hmatch : sameEdgePair (build_trafo_edge s_base vn_kv sqrtfn t)
        t.hv_bus t.lv_bus = true := by
      simp [sameEdgePair, build_trafo_edge]
    have hsome : (rest.reverse.find? (fun e => sameEdgePair e t.hv_bus t.lv_bus)).isSome := by
      rw [List.find?_isSome]
      exact ⟨_, List.mem_reverse.mpr hmem, hmatch⟩
    obtain ⟨a, ha⟩ := Option.isSome_iff_exists.mp hsome
    have hrev : es.reverse = rest.reverse ++ le.reverse := by
      rw [hes, List.reverse_append]
    have hfind : lookupEdgeAttrs es t.hv_bus t.lv_bus = some a := by
      rw [lookupEdgeAttrs, hrev, List.find?_append, ha]
      rfl
    have haRest : a ∈ rest := List.mem_reverse.mp (List.mem_of_find?_eq_some ha)
    have haProp := hrest a haRest
    refine ⟨a, hfind, ?_, haProp.1, haProp.2, ?_⟩
    · rw [hes]
      exact List.mem_append_right _ haRest
    · rw [haProp.1, dc_flow_rule]
      simp [haProp.2]

def c7row : TrafoRow :=
  { hv_bus := 1, lv_bus := 2, sn_mva := none, vn_hv_kv := none,
    vk_percent := none, vkr_percent := none }

def c7edge : EdgeAttrs :=
  { u := 1, v := 2, type := "trafo", b_pu := none, max_i_ka := none,
    I_min_pu := none, I_max_pu := none, R := none, X := none,
    x_ohm := none, r_ohm := none }

theorem C7_transformer_exemption_witness :
    (build_graph_edges 100 (fun _ => 20) (fun x => x) [] [c7row] [] = .ok [c7edge] ∧
      c7row ∈ [c7row]) ∧
    (∃ a : EdgeAttrs, lookupEdgeAttrs [c7edge] c7row.hv_bus c7row.lv_bus = some a ∧
      a ∈ [c7edge] ∧ a.b_pu = none ∧ a.type ≠ "line" ∧
      dc_flow_rule a.u a.v a.b_pu a.type = DCFlowResult.skip) :=
  ⟨⟨by with_unfolding_all rfl, List.mem_singleton.mpr rfl⟩,
    C7_transformer_exemption 100 (fun _ => 20) (fun x => x) [] [c7row] [] [c7edge] c7row
      (by with_unfolding_all rfl) (List.mem_singleton.mpr rfl)⟩

/-! ### DC nodal power balance (`power_balance_rule`, powerflow_dc.py lines 58-73) -/

/-- A valuation of the variables mentioned by the balance constraint. -/
structure BalanceVal where
  F : ℤ → ℤ → ℕ → ℕ → ℚ
  E : ℤ → ℕ → ℕ → ℚ
  P_plus : ℤ → ℕ → ℕ → ℚ
  P_minus : ℤ → ℕ → ℕ → ℚ

/-- The left-hand side built by `power_balance_rule`:
`sum over (i,j) in Lines of (F[i,j] if j == u else 0) - (F[i,j] if i == u else 0)`. -/
def balance_lhs (lines : List (ℤ × ℤ)) (F : ℤ → ℤ → ℕ → ℕ → ℚ) (u : ℤ)
    (vp vv : ℕ) : ℚ :=
  (lines.map (fun e =>
    (if e.2 = u then F e.1 e.2 vp vv else 0) -
      (if e.1 = u then F e.1 e.2 vp vv else 0))).sum

/-- The constraint generated by `power_balance_rule` for node `u` and
scenario vertex pair `(vp, vv)`: parents are tested before children. -/
def power_balance_rule (lines : List (ℤ × ℤ)) (parents children : Finset ℤ)
    (σ : BalanceVal) (u : ℤ) (vp vv : ℕ) : Prop :=
  if u ∈ parents then
    balance_lhs lines σ.F u vp vv = σ.E u vp vv - σ.P_plus u vp vv
  else if u ∈ children then
    balance_lhs lines σ.F u vp vv = σ.E u vp vv + σ.P_minus u vp vv
  else
    balance_lhs lines σ.F u vp vv = σ.E u vp vv

/-- Modelled from the claim's words: the net flow OUT of node `u` — the
sum of `F` over lines leaving `u` minus the sum of `F` over lines
entering `u`. -/
def net_flow_out (lines : List (ℤ × ℤ)) (F : ℤ → ℤ → ℕ → ℕ → ℚ) (u : ℤ)
    (vp vv : ℕ) : ℚ :=
  ((lines.filter (fun e => decide (e.1 = u))).map (fun e => F e.1 e.2 vp vv)).sum -
    ((lines.filter (fun e => decide (e.2 = u))).map (fun e => F e.1 e.2 vp vv)).sum

/-- The net flow INTO node `u` — the sum of `F` over lines entering `u`
minus the sum of `F` over lines leaving `u`. -/
def net_flow_in (lines : List (ℤ × ℤ)) (F : ℤ → ℤ → ℕ → ℕ → ℚ) (u : ℤ)
    (vp vv : ℕ) : ℚ :=
  ((lines.filter (fun e => decide (e.2 = u))).map (fun e => F e.1 e.2 vp vv)).sum -
    ((lines.filter (fun e => decide (e.1 = u))).map (fun e => F e.1 e.2 vp vv)).sum

/-- The claim's version of the balance constraint, word for word: the net
flow out of `u` equals the boundary-adjusted right-hand side. -/
def claimed_power_balance (lines : List (ℤ × ℤ)) (parents children : Finset ℤ)
    (σ : BalanceVal) (u : ℤ) (vp vv : ℕ) : Prop :=
  if u ∈ parents then
    net_flow_out lines σ.F u vp vv = σ.E u vp vv - σ.P_plus u vp vv
  else if u ∈ children then
    net_flow_out lines σ.F u vp vv = σ.E u vp vv + σ.P_minus u vp vv
  else
    net_flow_out lines σ.F u vp vv = σ.E u vp vv

/-- A concrete valuation separating the generated constraint from the
claimed one: a single line `(0, 1)` carrying flow `1` into node `1`, with
`E[0] = -1`. -/
def c2val : BalanceVal where
  F := fun _ _ _ _ => 1
  E := fun n _ _ => if n = 0 then -1 else 1
  P_plus := fun _ _ _ => 0
  P_minus := fun _ _ _ => 0

/-- C2 counterexample: at node `0` of the one-line graph the constraint
generated by the code is satisfied while the claim's equation (net flow
OUT equals the right-hand side) is violated, so the generated constraint
is not the claimed one. -/
theorem C2_power_balance_counterexample :
    power_balance_rule [(0, 1)] ∅ ∅ c2val 0 0 0 ∧
      ¬ claimed_power_balance [(0, 1)] ∅ ∅ c2val 0 0 0 := by
  constructor
  · show balance_lhs [(0, 1)] c2val.F 0 0 0 = c2val.E 0 0 0
    show ((0:ℚ) - 1) + 0 = -1
    norm_num
  · show ¬ net_flow_out [(0, 1)] c2val.F 0 0 0 = c2val.E 0 0 0
    show ¬ (((1:ℚ) + 0) - 0 = -1)
    norm_num

theorem balance_lhs_eq_net_flow_in (lines : List (ℤ × ℤ))
    (F : ℤ → ℤ → ℕ → ℕ → ℚ) (u : ℤ) (vp vv : ℕ) :
    balance_lhs lines F u vp vv = net_flow_in lines F u vp vv := by
  induction lines with
  | nil => simp [balance_lhs, net_flow_in]
  | cons e l ih =>
    by_cases h1 : e.1 = u <;> by_cases h2 : e.2 = u <;>
      simp [balance_lhs, net_flow_in, List.filter_cons, h1, h2] at ih ⊢ <;>
      linarith [ih]

/-- C2 amended: the constraint generated by `power_balance_rule` equates
the net flow INTO node `u` (sum of `F` over lines entering `u` minus sum
over lines leaving `u`) with `E[u] - P_plus[u]` when `u` is a parent,
`E[u] + P_minus[u]` when `u` is a child (parents tested first), and
`E[u]` otherwise. -/
theorem C2_power_balance_amended (lines : List (ℤ × ℤ))
    (parents children : Finset ℤ) (σ : BalanceVal) (u : ℤ) (vp vv : ℕ) :
    power_balance_rule lines parents children σ u vp vv ↔
      (if u ∈ parents then
        net_flow_in lines σ.F u vp vv = σ.E u vp vv - σ.P_plus u vp vv
      else if u ∈ children then
        net_flow_in lines σ.F u vp vv = σ.E u vp vv + σ.P_minus u vp vv
      else
        net_flow_in lines σ.F u vp vv = σ.E u vp vv) := by
  rw [power_balance_rule, balance_lhs_eq_net_flow_in]

/-! ### Envelope ordering and result extraction (security.py, compute.py,
pyomo_backend_dc.py) -/

/-- `logical_constraint_rule` (security.py lines 74-77): the constraint
generated for each child. -/
def logical_constraint_rule (P_C_set : ℤ → ℕ → ℚ) (u : ℤ) : Prop :=
  P_C_set u 0 ≥ P_C_set u 1

/-- Envelope extraction of `_solve_model` (compute.py lines 143-149):
per child, the values of `P_C_set` over the `VertP` vertices, collapsed to
`(min(values), max(values))` when non-empty.  `pyo.value` is total here
(it raises on an unsolved model instead of yielding a placeholder). -/
def compute_envelopes (children : List ℤ) (vertices : List ℕ)
    (pc : ℤ → ℕ → ℚ) : List (ℤ × ℚ × ℚ) :=
  children.filterMap (fun n =>
    match vertices.map (pc n) with
    | [] => none
    | v :: vs => some (n, vs.foldl min v, vs.foldl max v))

/-- Fallback of `_solve_model` (compute.py lines 151-154): when no
envelope was produced and the model has parents, every parent receives
the configured `(P_min, P_max)` pair. -/
def compute_envelopes_with_fallback (children : List ℤ) (vertices : List ℕ)
    (pc : ℤ → ℕ → ℚ) (parents : List ℤ) (P_min P_max : ℚ) :
    List (ℤ × ℚ × ℚ) :=
  if compute_envelopes children vertices pc = [] then
    parents.map (fun n => (n, P_min, P_max))
  else compute_envelopes children vertices pc

theorem foldl_min_le_init (l : List ℚ) : ∀ v : ℚ, l.foldl min v ≤ v := by
  induction l with
  | nil => intro v; simp
  | cons a l ih =>
    intro v
    calc l.foldl min (min v a) ≤ min v a := ih (min v a)
    _ ≤ v := min_le_left v a

theorem foldl_max_ge_init (l : List ℚ) : ∀ v : ℚ, v ≤ l.foldl max v := by
  induction l with
  | nil => intro v; simp
  | cons a l ih =>
    intro v
    calc v ≤ max v a := le_max_left v a
    _ ≤ l.foldl max (max v a) := ih (max v a)

theorem compute_envelopes_ordered (children : List ℤ) (vertices : List ℕ)
    (pc : ℤ → ℕ → ℚ) :
    ∀ p ∈ compute_envelopes children vertices pc, p.2.1 ≤ p.2.2 := by
  intro p hp
  obtain ⟨n, _, hn⟩ := List.mem_filterMap.mp hp
  revert hn
  cases hv : vertices.map (pc n) with
  | nil => intro hn; cases hn
  | cons v vs =>
    intro hn
    cases hn
    exact (foldl_min_le_init vs v).trans (foldl_max_ge_init vs v)

/-- C8 counterexample: with no children, one parent and the configuration
bounds `P_min = 1 > P_max = 0`, the fallback of `_solve_model` places the
pair `(1, 0)` in the returned envelopes map, which violates
`P_max >= P_min`. -/
theorem C8_envelope_ordering_counterexample :
    compute_envelopes_with_fallback [] [0, 1] (fun _ _ => 0) [1] 1 0 =
      [(1, 1, 0)] ∧
    ∃ p ∈ compute_envelopes_with_fallback [] [0, 1] (fun _ _ => 0) [1] 1 0,
      ¬ p.2.1 ≤ p.2.2 := by
  constructor
  · with_unfolding_all decide
  · refine ⟨(1, 1, 0), ?_, by norm_num⟩
    show (1, (1 : ℚ), (0 : ℚ)) ∈ compute_envelopes_with_fallback [] [0, 1] (fun _ _ => 0) [1] 1 0
    rw [show compute_envelopes_with_fallback [] [0, 1] (fun _ _ => 0) [1] 1 0 =
      [(1, 1, 0)] from by with_unfolding_all decide]
    exact List.mem_singleton.mpr rfl

/-- C8 amended: the security builder's constraint for every child is
exactly `P_C_set[c,0] >= P_C_set[c,1]`; every envelope pair derived from
solved `P_C_set` values satisfies `P_max >= P_min`; and the fallback
parent pairs satisfy it provided the configured bounds are ordered
(`P_min <= P_max`) — an unordered configuration is copied verbatim. -/
theorem C8_envelope_ordering_amended (P_C_set : ℤ → ℕ → ℚ) (c : ℤ)
    (children : List ℤ) (vertices : List ℕ) (pc : ℤ → ℕ → ℚ)
    (parents : List ℤ) (pmin pmax : ℚ) (hp : pmin ≤ pmax) :
    (logical_constraint_rule P_C_set c ↔ P_C_set c 0 ≥ P_C_set c 1) ∧
    (∀ p ∈ compute_envelopes children vertices pc, p.2.1 ≤ p.2.2) ∧
    (∀ p ∈ compute_envelopes_with_fallback children vertices pc parents pmin pmax,
      p.2.1 ≤ p.2.2) := by
  refine ⟨Iff.rfl, compute_envelopes_ordered children vertices pc, ?_⟩
  intro p hp'
  rw [compute_envelopes_with_fallback] at hp'
  by_cases h : compute_envelopes children vertices pc = []
  · rw [if_pos h] at hp'
    obtain ⟨n, _, rfl⟩ := List.mem_map.mp hp'
    exact hp
  · rw [if_neg h] at hp'
    exact compute_envelopes_ordered children vertices pc p hp'

theorem C8_envelope_ordering_amended_witness :
    ((-1 : ℚ) ≤ 1) ∧
    ((logical_constraint_rule (fun _ _ => 0) 0 ↔
        (fun (_ : ℤ) (_ : ℕ) => (0 : ℚ)) 0 0 ≥ (fun (_ : ℤ) (_ : ℕ) => (0 : ℚ)) 0 1) ∧
      (∀ p ∈ compute_envelopes [5] [0, 1] (fun _ _ => 2), p.2.1 ≤ p.2.2) ∧
      (∀ p ∈ compute_envelopes_with_fallback [5] [0, 1] (fun _ _ => 2) [7] (-1) 1,
        p.2.1 ≤ p.2.2)) :=
  ⟨by norm_num,
    C8_envelope_ordering_amended (fun _ _ => 0) 0 [5] [0, 1] (fun _ _ => 2) [7]
      (-1) 1 (by norm_num)⟩

/-- A Python float that may be NaN: `solve_model` stores
`float(objective_raw)` when `pyo.value(..., exception=False)` produced a
value and `math.nan` otherwise. -/
inductive PyFloat
  | num (q : ℚ)
  | nan
  deriving DecidableEq

/-- The payload returned by the legacy `solve_model`
(pyomo_backend_dc.py lines 275-283); `curtailment_report` is always empty
and `diagnostics` repeats the status, so both are omitted. -/
structure SolveResult where
  status : String
  objective : PyFloat
  envelopes : List (ℤ × ℚ × ℚ)
  deriving DecidableEq

/-- Result extraction of `solve_model` (pyomo_backend_dc.py lines
248-273): `objective_raw = pyo.value(m.objective, exception=False)` is
`none` on an unsolved model and maps to NaN; per child, the available
`P_C_set` values (entries without a value are ignored) collapse to
`(min, max)`; when no envelope was produced, every parent receives the
configured `(P_min, P_max)` bounds. -/
def solve_model_extract (status : String) (objective_raw : Option ℚ)
    (children : List ℤ) (vertices : List ℕ) (pcval : ℤ → ℕ → Option ℚ)
    (parents : List ℤ) (P_min P_max : ℚ) : SolveResult :=
  let objective_val := match objective_raw with
    | some q => PyFloat.num q
    | none => PyFloat.nan
  let envelopes := children.filterMap (fun n =>
    match vertices.filterMap (pcval n) with
    | [] => none
    | v :: vs => some (n, vs.foldl min v, vs.foldl max v))
  { status := status
    objective := objective_val
    envelopes := if envelopes = [] then parents.map (fun n => (n, P_min, P_max))
      else envelopes }

/-- C3 counterexample: a solve in which the solver was unavailable
(status `not_solved`, no objective value, no `P_C_set` values) but the
configuration has one parent returns a result whose envelopes map is NOT
empty — it holds the fabricated pair `(P_min, P_max) = (-1, 1)` for the
parent — and whose objective value is NaN rather than null. -/
theorem C3_no_fabrication_counterexample :
    (solve_model_extract "not_solved" none [3] [0, 1] (fun _ _ => none) [1]
        (-1) 1).envelopes = [(1, -1, 1)] ∧
    (solve_model_extract "not_solved" none [3] [0, 1] (fun _ _ => none) [1]
        (-1) 1).envelopes ≠ [] ∧
    (solve_model_extract "not_solved" none [3] [0, 1] (fun _ _ => none) [1]
        (-1) 1).objective = PyFloat.nan := by
  with_unfolding_all decide

/-- C3 amended: on a failed solve (no objective value, no `P_C_set`
values) the result still reports the failure status, but its objective is
NaN and its envelopes map is fabricated from the configuration bounds:
one `(P_min, P_max)` pair per parent, empty only when there are no
parents. -/
theorem C3_no_fabrication_amended (status : String) (children parents : List ℤ)
    (vertices : List ℕ) (pcval : ℤ → ℕ → Option ℚ) (P_min P_max : ℚ)
    (hnone : ∀ n v, v ∈ vertices → pcval n v = none) :
    (solve_model_extract status none children vertices pcval parents
        P_min P_max).status = status ∧
    (solve_model_extract status none children vertices pcval parents
        P_min P_max).objective = PyFloat.nan ∧
    (solve_model_extract status none children vertices pcval parents
        P_min P_max).envelopes = parents.map (fun n => (n, P_min, P_max)) := by
  have hempty : ∀ n : ℤ, vertices.filterMap (pcval n) = [] := by
    intro n
    rw [List.filterMap_eq_nil_iff]
    exact fun v hv => hnone n v hv
  refine ⟨rfl, rfl, ?_⟩
  show (if (children.filterMap fun n =>
      match vertices.filterMap (pcval n) with
      | [] => none
      | v :: vs => some (n, vs.foldl min v, vs.foldl max v)) = [] then
        parents.map (fun n => (n, P_min, P_max))
      else _) = parents.map (fun n => (n, P_min, P_max))
  rw [if_pos]
  rw [List.filterMap_eq_nil_iff]
  intro n _
  rw [hempty n]

theorem C3_no_fabrication_amended_witness :
    (∀ (n : ℤ) (v : ℕ), v ∈ [0, 1] → (fun (_ : ℤ) (_ : ℕ) => (none : Option ℚ)) n v = none) ∧
    ((solve_model_extract "not_solved" none [3] [0, 1] (fun _ _ => none) [4, 5]
        (-2) 2).status = "not_solved" ∧
      (solve_model_extract "not_solved" none [3] [0, 1] (fun _ _ => none) [4, 5]
        (-2) 2).objective = PyFloat.nan ∧
      (solve_model_extract "not_solved" none [3] [0, 1] (fun _ _ => none) [4, 5]
        (-2) 2).envelopes = [4, 5].map (fun n => (n, -2, 2))) :=
  ⟨fun n v _ => rfl,
    C3_no_fabrication_amended "not_solved" [3] [4, 5] [0, 1] (fun _ _ => none)
      (-2) 2 (fun n v _ => rfl)⟩

/-! ### DOE objective (`global_sum.py`) and `compute` validation -/

/-- A term of the objective expression: either a reference to an existing
model variable, or a freshly created constant parameter. -/
inductive ObjTerm
  | paramConst (name : String) (value : ℚ)
  | varRef (name : String)
  deriving DecidableEq

def ObjTerm.isVar : ObjTerm → Bool
  | .paramConst _ _ => false
  | .varRef _ => true

/-- The objective attached by `global_sum.build`:
`sense maximize`, expression `first - alpha * second - beta * third`. -/
structure Objective where
  maximize : Bool
  first : ObjTerm
  alpha : ℚ
  second : ObjTerm
  beta : ℚ
  third : ObjTerm
  deriving DecidableEq

/-- The `params` mapping handed to the objective builder. -/
structure GlobalSumParams where
  alpha : ℚ
  beta : ℚ
  envelope_size : Option ℚ
  curt_budget : Option ℚ
  envelope_center_gap : Option ℚ
  deriving DecidableEq

/-- Which of the two components consulted by `global_sum.build` exist on
the model as Pyomo `Var`s (both do in the DC backend's model). -/
structure ModelComponents where
  curtailment_budget_is_var : Bool
  envelope_center_gap_is_var : Bool
  deriving DecidableEq

/-- `global_sum.build` (objectives/global_sum.py lines 33-59): the first
term is always a NEW scalar parameter `envelope_size` initialised from
`params` (default 0); the curtailment and gap terms reuse the model's
variables when present, else fall back to parameters. -/
def global_sum_build (model : ModelComponents) (params : GlobalSumParams) : Objective :=
  let env_size := params.envelope_size.getD 0
  let curt_budget := params.curt_budget.getD 0
  let center_gap := params.envelope_center_gap.getD 0
  { maximize := true
    first := ObjTerm.paramConst "envelope_size" env_size
    alpha := params.alpha
    second := if model.curtailment_budget_is_var then ObjTerm.varRef "curtailment_budget"
      else ObjTerm.paramConst "curt_budget" curt_budget
    beta := params.beta
    third := if model.envelope_center_gap_is_var then ObjTerm.varRef "envelope_center_gap"
      else ObjTerm.paramConst "envelope_center_gap" center_gap }

/-- `_prepare_objective_params` (compute.py lines 89-110): the
`envelope_size` entry defaults to the sum of `abs(P)` over the
operational nodes when the caller did not supply one. -/
def prepare_objective_params (powers : List ℚ) (alpha beta : ℚ)
    (envelope_size_opt curt_budget_opt center_gap_opt : Option ℚ) : GlobalSumParams :=
  { alpha := alpha
    beta := beta
    envelope_size := some (envelope_size_opt.getD ((powers.map abs).sum))
    curt_budget := some (curt_budget_opt.getD 0)
    envelope_center_gap := some (center_gap_opt.getD 0) }

inductive ComputeError
  | unknownPowerflow (mode : String)
  | unknownObjective (obj : String)
  | missingWeights
  deriving DecidableEq

/-- Argument validation of `compute` (compute.py lines 171-178). -/
def compute_validate (powerflow_mode objective : String)
    (hasAlpha hasBeta : Bool) : Except ComputeError Unit :=
  if powerflow_mode ∉ ["dc", "ac"] then .error (.unknownPowerflow powerflow_mode)
  else if objective ∉ ["global_sum", "fairness"] then .error (.unknownObjective objective)
  else if objective = "global_sum" && (!hasAlpha || !hasBeta) then .error .missingWeights
  else .ok ()

/-- C4 counterexample: the objective built for the DC model (both
penalty components present as variables) with default parameters has as
its first term a constant parameter named `envelope_size` with value 0 —
not the model's `envelope_volume` decision variable constrained by the
security builder, so the claimed objective shape is wrong at this
input. -/
theorem C4_doe_objective_counterexample :
    (global_sum_build ⟨true, true⟩ ⟨1, 1, none, none, none⟩).first =
      ObjTerm.paramConst "envelope_size" 0 ∧
    (global_sum_build ⟨true, true⟩ ⟨1, 1, none, none, none⟩).first.isVar = false ∧
    (global_sum_build ⟨true, true⟩ ⟨1, 1, none, none, none⟩).first ≠
      ObjTerm.varRef "envelope_volume" := by
  with_unfolding_all decide

/-- C4 amended: the objective attached by the DOE (`global_sum`) builder
is maximize `envelope_size - alpha * curtailment_budget -
beta * envelope_center_gap`, where `envelope_size` is a fixed numeric
parameter taken from the prepared options (defaulting to the sum of
`abs(P)` over the operational nodes) while `curtailment_budget` and
`envelope_center_gap` are the model's decision variables; and `compute`
rejects a `global_sum` invocation that omits `alpha` or `beta`. -/
theorem C4_doe_objective_amended (model : ModelComponents)
    (params : GlobalSumParams) (powers : List ℚ) (a b : ℚ)
    (cb cg : Option ℚ) (hasAlpha hasBeta : Bool)
    (hvars : model.curtailment_budget_is_var = true ∧
      model.envelope_center_gap_is_var = true)
    (hmissing : ¬ (hasAlpha = true ∧ hasBeta = true)) :
    (global_sum_build model params).maximize = true ∧
    (global_sum_build model params).first =
      ObjTerm.paramConst "envelope_size" (params.envelope_size.getD 0) ∧
    (global_sum_build model params).alpha = params.alpha ∧
    (global_sum_build model params).second = ObjTerm.varRef "curtailment_budget" ∧
    (global_sum_build model params).beta = params.beta ∧
    (global_sum_build model params).third = ObjTerm.varRef "envelope_center_gap" ∧
    (prepare_objective_params powers a b none cb cg).envelope_size =
      some ((powers.map abs).sum) ∧
    compute_validate "dc" "global_sum" hasAlpha hasBeta =
      .error ComputeError.missingWeights := by
  obtain ⟨h1, h2⟩ := hvars
  refine ⟨rfl, rfl, rfl, ?_, rfl, ?_, rfl, ?_⟩
  · show (if model.curtailment_budget_is_var then _ else _) = _
    rw [h1, if_pos rfl]
  · show (if model.envelope_center_gap_is_var then _ else _) = _
    rw [h2, if_pos rfl]
  · cases hasAlpha <;> cases hasBeta
    · with_unfolding_all rfl
    · with_unfolding_all rfl
    · with_unfolding_all rfl
    · exact absurd ⟨rfl, rfl⟩ hmissing

theorem C4_doe_objective_amended_witness :
    (((⟨true, true⟩ : ModelComponents).curtailment_budget_is_var = true ∧
        (⟨true, true⟩ : ModelComponents).envelope_center_gap_is_var = true) ∧
      ¬ (false = true ∧ true = true)) ∧
    ((global_sum_build ⟨true, true⟩ ⟨2, 3, some 7, none, none⟩).maximize = true ∧
      (global_sum_build ⟨true, true⟩ ⟨2, 3, some 7, none, none⟩).first =
        ObjTerm.paramConst "envelope_size"
          ((⟨2, 3, some 7, none, none⟩ : GlobalSumParams).envelope_size.getD 0) ∧
      (global_sum_build ⟨true, true⟩ ⟨2, 3, some 7, none, none⟩).alpha =
        (⟨2, 3, some 7, none, none⟩ : GlobalSumParams).alpha ∧
      (global_sum_build ⟨true, true⟩ ⟨2, 3, some 7, none, none⟩).second =
        ObjTerm.varRef "curtailment_budget" ∧
      (global_sum_build ⟨true, true⟩ ⟨2, 3, some 7, none, none⟩).beta =
        (⟨2, 3, some 7, none, none⟩ : GlobalSumParams).beta ∧
      (global_sum_build ⟨true, true⟩ ⟨2, 3, some 7, none, none⟩).third =
        ObjTerm.varRef "envelope_center_gap" ∧
      (prepare_objective_params [1, -2] 2 3 none none none).envelope_size =
        some (([1, -2].map abs).sum) ∧
      compute_validate "dc" "global_sum" false true =
        .error ComputeError.missingWeights) :=
  ⟨⟨⟨rfl, rfl⟩, by simp⟩,
    C4_doe_objective_amended ⟨true, true⟩ ⟨2, 3, some 7, none, none⟩ [1, -2] 2 3
      none none false true ⟨rfl, rfl⟩ (by simp)⟩

/-! ### Missing callee names in `compute` (compute.py lines 192-198 and
122-126) -/

/-- The top-level names the module `doe.utils.graph` binds (its imports
and function definitions, graph.py lines 1-307). -/
def graph_utils_defs : List String :=
  ["json", "math", "Any", "Dict", "Iterable", "Optional", "Set", "deque", "nx",
   "_maybe_float", "extract_network_data", "build_graph_from_data", "create_graph",
   "build_nx_from_pandapower", "op_graph", "compute_info_dso"]

/-- The top-level names the module `doe.constraints.security` binds
(security.py lines 1-136). -/
def security_defs : List String :=
  ["annotations", "pyo", "_add_current_bounds", "_add_voltage_vertices",
   "_add_curtailment_abs", "_add_parent_power_bounds", "_add_phase_bounds",
   "attach_security_constraints"]

/-- Python attribute lookup on a module: `AttributeError` when the name
is not bound. -/
def pyGetAttr (defs : List String) (name : String) : Option String :=
  if name ∈ defs then some name else none

inductive ComputeOutcome
  | attrError (module attr : String)
  | returned
  deriving DecidableEq

/-- The solve stage entered by `compute` through `_solve_model`
(compute.py lines 122-126): after running the power-flow builder it
evaluates `security.build`. -/
def solve_model_dispatch : ComputeOutcome :=
  match pyGetAttr security_defs "build" with
  | none => ComputeOutcome.attrError "doe.constraints.security" "build"
  | some _ => ComputeOutcome.returned

/-- Control flow of `compute` after successful validation, network load
and graph construction (compute.py lines 192-229), at module-attribute
granularity: with a non-empty `children_nodes` and no `info_DSO` option
it evaluates `graph_utils.compute_info_P`; otherwise it proceeds to the
model build and `_solve_model`. -/
def compute_dispatch (children_nonempty info_dso_provided : Bool) : ComputeOutcome :=
  if children_nonempty && !info_dso_provided then
    match pyGetAttr graph_utils_defs "compute_info_P" with
    | none => ComputeOutcome.attrError "doe.utils.graph" "compute_info_P"
    | some _ => solve_model_dispatch
  else solve_model_dispatch

/-- C5: every invocation of `compute` that passes validation raises
`AttributeError` and never returns: the info branch looks up
`compute_info_P`, which `doe.utils.graph` does not define (it defines
`compute_info_dso`), and every other path reaches `security.build`,
which `doe.constraints.security` does not define (it defines
`attach_security_constraints`). -/
theorem C5_compute_raises_attribute_error
    (children_nonempty info_dso_provided : Bool) :
    (compute_dispatch children_nonempty info_dso_provided =
      if children_nonempty && !info_dso_provided then
        ComputeOutcome.attrError "doe.utils.graph" "compute_info_P"
      else ComputeOutcome.attrError "doe.constraints.security" "build") ∧
    compute_dispatch children_nonempty info_dso_provided ≠
      ComputeOutcome.returned ∧
    "compute_info_P" ∉ graph_utils_defs ∧
    "compute_info_dso" ∈ graph_utils_defs ∧
    "build" ∉ security_defs ∧
    "attach_security_constraints" ∈ security_defs := by
  cases children_nonempty <;> cases info_dso_provided <;>
    exact ⟨by with_unfolding_all rfl, by with_unfolding_all decide,
      by decide, by decide, by decide, by decide⟩

/-! ### Float-aware line construction and claim C9

A pandas-backed pandapower table stores an absent value as a NaN entry,
not as a missing key, so `float(row.get("x_ohm_per_km", 0.0))` yields NaN
for it (the `0.0` default applies only when the key itself is missing).
NaN then propagates through the products and quotients of the line loop,
and `math.isclose(x_ohm, 0.0)` is False for NaN, so no error is raised
and the edge is silently built with `b_pu = NaN`.  The definitions below
refine `LineRow`/`build_line_edge` by tracking NaN entries explicitly
with `PyFloat`. -/

def PyFloat.neg : PyFloat → PyFloat
  | .num a => .num (-a)
  | .nan => .nan

/-- Python float multiplication restricted to the values the line loop
produces: NaN propagates. -/
def PyFloat.mul : PyFloat → PyFloat → PyFloat
  | .num a, .num b => .num (a * b)
  | _, _ => .nan

/-- Division of a float by a rational; the source reaches it only under a
guard making the divisor nonzero. -/
def PyFloat.divQ : PyFloat → ℚ → PyFloat
  | .num a, b => .num (a / b)
  | .nan, _ => .nan

/-- Division of a rational by a float; NaN propagates.  An exactly-zero
divisor raises `ZeroDivisionError` in Python; the source divides by
`x_ohm * s_base` only after the zero-reactance guard, so with a nonzero
`s_base` (the claims never exercise `s_base = 0`) the rational junk value
at a zero divisor is unreachable on the modelled paths. -/
def PyFloat.qdiv (a : ℚ) : PyFloat → PyFloat
  | .num b => .num (a / b)
  | .nan => .nan

/-- A line-table row whose entries carry float semantics: `none` is a
missing key, `PyFloat.nan` a NaN entry (how pandas stores an absent
value), `PyFloat.num q` a finite value. -/
structure LineRowF where
  from_bus : ℤ
  to_bus : ℤ
  length_km : Option PyFloat
  x_ohm_per_km : Option PyFloat
  r_ohm_per_km : Option PyFloat
  max_i_ka : Option PyFloat
  deriving DecidableEq

/-- Edge attributes with float semantics; `none` is a Python `None` (or
absent) attribute, a stored NaN is `some PyFloat.nan`. -/
structure EdgeAttrsF where
  u : ℤ
  v : ℤ
  type : String
  b_pu : Option PyFloat
  max_i_ka : Option PyFloat
  I_min_pu : Option PyFloat
  I_max_pu : Option PyFloat
  R : Option PyFloat
  X : Option PyFloat
  x_ohm : Option PyFloat
  r_ohm : Option PyFloat
  deriving DecidableEq

/-- Float-aware body of the line loop (graph.py lines 133-168), refining
`build_line_edge`: `math.isclose(x_ohm, 0.0)` with the default tolerances
holds exactly when `x_ohm == 0.0`, hence is False for NaN; a NaN
reactance flows into `b_pu`.  `s_base` and the bus voltages are finite
rationals here.  The rating check `max_i_ka is not None and not
math.isnan(max_i_ka)` keeps only the `some (.num i)` case. -/
def build_line_edge_f (s_base : ℚ) (vn_kv : ℤ → ℚ) (sqrtfn : ℚ → ℚ)
    (row : LineRowF) : Except GraphBuildError EdgeAttrsF :=
  let length := row.length_km.getD (.num 0)
  let x_ohm := (row.x_ohm_per_km.getD (.num 0)).mul length
  let r_ohm := (row.r_ohm_per_km.getD (.num 0)).mul length
  let V_kv := vn_kv row.from_bus
  if x_ohm = PyFloat.num 0 then .error (.zeroReactance row.from_bus row.to_bus)
  else
    let z_base := if s_base ≠ 0 then V_kv ^ 2 / s_base else 0
    let R_pu := if z_base ≠ 0 then r_ohm.divQ z_base else PyFloat.num 0
    let X_pu := if z_base ≠ 0 then x_ohm.divQ z_base else PyFloat.num 0
    let b_pu := PyFloat.qdiv (V_kv ^ 2) (x_ohm.mul (.num s_base))
    let base_i_ka := s_base / (sqrtfn 3 * V_kv)
    let I_max_pu : PyFloat := match row.max_i_ka with
      | some (.num i) => .num (i / base_i_ka)
      | _ => .num 10
    .ok { u := row.from_bus, v := row.to_bus, type := "line", b_pu := some b_pu,
          max_i_ka := row.max_i_ka, I_min_pu := some I_max_pu.neg,
          I_max_pu := some I_max_pu, R := some R_pu, X := some X_pu,
          x_ohm := some x_ohm, r_ohm := some r_ohm }

/-- `dc_flow_rule` over float attributes (powerflow_dc.py lines 37-48):
only a Python `None` value of `b_pu` reaches the KeyError/Skip branch; a
NaN susceptance is not `None`, so it flows into the emitted equation as
the coefficient. -/
inductive DCFlowResultF
  | missingB (u v : ℤ)
  | skip
  | flowEq (b : PyFloat)
  deriving DecidableEq

def dc_flow_rule_f (u v : ℤ) (b_pu : Option PyFloat) (edge_type : String) :
    DCFlowResultF :=
  match b_pu with
  | none => if edge_type = "line" then .missingB u v else .skip
  | some b => .flowEq b

/-- A line row whose reactance cell holds NaN — the pandas representation
of an absent `x_ohm_per_km` value — with a finite length. -/
def c9rowNan : LineRowF :=
  { from_bus := 8, to_bus := 9, length_km := some (.num 4),
    x_ohm_per_km := some .nan, r_ohm_per_km := some (.num 0), max_i_ka := none }

/-- The edge `build_line_edge_f` silently builds for `c9rowNan` with
`s_base = 100`, `V = 20`: its susceptance is NaN. -/
def c9edgeNan : EdgeAttrsF :=
  { u := 8, v := 9, type := "line", b_pu := some .nan, max_i_ka := none,
    I_min_pu := some (.num (-10)), I_max_pu := some (.num 10),
    R := some (.num 0), X := some .nan, x_ohm := some .nan,
    r_ohm := some (.num 0) }

/-- C9 counterexample: a line whose reactance entry is absent in the
pandas sense (a NaN cell) is NOT rejected by graph construction — the
builder returns an edge whose `b_pu` is NaN — and the DC builder does not
error on it either: `dc_flow_rule` emits the flow equation with the NaN
coefficient, since NaN is not `None`.  So the claimed `absent => error`
and `no degenerate susceptance is ever produced` are false of the
program. -/
theorem C9_missing_reactance_counterexample :
    build_line_edge_f 100 (fun _ => 20) (fun x => x) c9rowNan = .ok c9edgeNan ∧
    c9edgeNan.b_pu = some PyFloat.nan ∧
    dc_flow_rule_f c9edgeNan.u c9edgeNan.v c9edgeNan.b_pu c9edgeNan.type =
      DCFlowResultF.flowEq PyFloat.nan :=
  ⟨by with_unfolding_all rfl, rfl, rfl⟩

/-- C9 amended: graph construction raises an error naming the line
endpoints whenever the computed total reactance is exactly zero — in
particular when the `x_ohm_per_km` or `length_km` key is missing
entirely, since the `0.0` default then makes the product zero — and a
successfully built line edge never has exactly-zero total reactance;
however a NaN reactance entry propagates silently into a NaN `b_pu`
instead of erroring.  At constraint-build time a line edge whose `b_pu`
is `None` raises a `KeyError` identifying the offending edge rather than
being silently skipped. -/
theorem C9_missing_reactance_amended (s_base : ℚ) (vn_kv : ℤ → ℚ)
    (sqrtfn : ℚ → ℚ) (row : LineRowF)
    (hx : (row.x_ohm_per_km.getD (.num 0)).mul (row.length_km.getD (.num 0)) =
      PyFloat.num 0) :
    build_line_edge_f s_base vn_kv sqrtfn row =
      .error (.zeroReactance row.from_bus row.to_bus) ∧
    (∀ u v : ℤ, dc_flow_rule_f u v none "line" = DCFlowResultF.missingB u v) ∧
    (∀ (row' : LineRowF) (e : EdgeAttrsF),
      build_line_edge_f s_base vn_kv sqrtfn row' = .ok e →
      (row'.x_ohm_per_km.getD (.num 0)).mul (row'.length_km.getD (.num 0)) ≠
        PyFloat.num 0) := by
  refine ⟨?_, fun u v => rfl, ?_⟩
  · rw [build_line_edge_f]
    simp only [hx, if_pos]
  · intro row' e hok hx'
    rw [build_line_edge_f] at hok
    simp only [hx', if_pos] at hok
    cases hok

/-- A line row with the `x_ohm_per_km` key missing entirely. -/
def c9rowMissing : LineRowF :=
  { from_bus := 8, to_bus := 9, length_km := some (.num 4), x_ohm_per_km := none,
    r_ohm_per_km := none, max_i_ka := none }

theorem C9_missing_reactance_amended_witness :
    ((c9rowMissing.x_ohm_per_km.getD (.num 0)).mul
        (c9rowMissing.length_km.getD (.num 0)) = PyFloat.num 0) ∧
    (build_line_edge_f 100 (fun _ => 20) (fun x => x) c9rowMissing =
        .error (.zeroReactance c9rowMissing.from_bus c9rowMissing.to_bus) ∧
      (∀ u v : ℤ, dc_flow_rule_f u v none "line" = DCFlowResultF.missingB u v) ∧
      (∀ (row' : LineRowF) (e : EdgeAttrsF),
        build_line_edge_f 100 (fun _ => 20) (fun x => x) row' = .ok e →
        (row'.x_ohm_per_km.getD (.num 0)).mul (row'.length_km.getD (.num 0)) ≠
          PyFloat.num 0)) :=
  ⟨by with_unfolding_all decide,
    C9_missing_reactance_amended 100 (fun _ => 20) (fun x => x) c9rowMissing
      (by with_unfolding_all decide)⟩
